import Mathlib

/-!
Shallow embedding of the credit-card filtering script `src/csv/abc.py`.

The script loads a CSV into a table, computes a boolean mask that is true when
any of the four network columns contains the text "visa signature"
(case-insensitively, with null cells treated as non-matching), a second mask
that is true when the Bank column contains "icici" (same conventions), conjoins
the two masks, projects the qualifying rows onto the 'Credit Card Name'
column, deduplicates keeping first occurrences, and prints a header line
followed by one line per distinct value.

Cells are `Option String`: `none` models a pandas NaN / absent value.
-/

/-- Character-list check that the first list is a prefix of the second. -/
def prefixOfChars : List Char → List Char → Bool
  | [], _ => true
  | _ :: _, [] => false
  | a :: as, b :: bs => a == b && prefixOfChars as bs

/-- Character-list check that the first list occurs contiguously inside the second. -/
def infixOfChars : List Char → List Char → Bool
  | needle, [] => needle.isEmpty
  | needle, c :: cs => prefixOfChars needle (c :: cs) || infixOfChars needle cs

/-- Python `str.lower`: per-character lower-casing. -/
def strLower (s : String) : String := String.mk (s.toList.map Char.toLower)

/-- Python substring containment test: does `hay` contain `needle`? -/
def strContainsSub (hay needle : String) : Bool := infixOfChars needle.toList hay.toList

/-- A row maps column names to cells; a NaN cell is stored as `none`. -/
abbrev Row : Type := List (String × Option String)

/-- Fetch a cell of a row: an absent key and a stored null both give `none`. -/
def getCell (r : Row) (c : String) : Option String := Option.join (List.lookup c r)

/-- A loaded table: header names plus the rows, in file order. -/
structure Table where
  headers : List String
  rows : List Row

/-- The four network columns scanned by the any-column predicate. -/
def network_cols : List String := ["Network 1", "Network 2", "Network 3", "Network 4"]

/-- Embeds `col.str.lower().str.contains(needle, na=False)` applied to one cell:
a null cell never matches; otherwise the lower-cased value must contain `needle`. -/
def cellMatch (needle : String) (cell : Option String) : Bool :=
  match cell with
  | none => false
  | some v => strContainsSub (strLower v) needle

/-- `visa_mask`: true when any of the four network columns contains
"visa signature" case-insensitively. -/
def visa_mask (r : Row) : Bool :=
  network_cols.any (fun c => cellMatch "visa signature" (getCell r c))

/-- `canara_mask`: true when the Bank column contains "icici" case-insensitively. -/
def canara_mask (r : Row) : Bool := cellMatch "icici" (getCell r "Bank")

/-- `final_mask = visa_mask & canara_mask`. -/
def final_mask (r : Row) : Bool := visa_mask r && canara_mask r

/-- pandas `unique`: emit each value at its first occurrence, tracking the set
of values already seen. -/
def uniqueFirstAux (seen : List (Option String)) : List (Option String) → List (Option String)
  | [] => []
  | x :: xs => if x ∈ seen then uniqueFirstAux seen xs else x :: uniqueFirstAux (x :: seen) xs

/-- Deduplication keeping first occurrences, as `pandas.Series.unique` does. -/
def uniqueFirst (l : List (Option String)) : List (Option String) := uniqueFirstAux [] l

/-- The projected names of qualifying rows in table order:
`df.loc[final_mask, 'Credit Card Name']`. -/
def qualifyingNames (rows : List Row) : List (Option String) :=
  (rows.filter final_mask).map (fun r => getCell r "Credit Card Name")

/-- `matching_cards` on the rows of an already-validated table:
`df.loc[final_mask, 'Credit Card Name'].unique()`. -/
def matching_cardsOf (rows : List Row) : List (Option String) :=
  uniqueFirst (qualifyingNames rows)

/-- The filtering stage on a loaded table, with the column-existence behavior of
pandas: selecting a column that is not a header raises a KeyError, checked once
per column access, before any row contributes to the output. -/
def matching_cards (t : Table) : Except String (List (Option String)) :=
  if network_cols.all (fun c => decide (c ∈ t.headers)) then
    if "Bank" ∈ t.headers then
      if "Credit Card Name" ∈ t.headers then Except.ok (matching_cardsOf t.rows)
      else Except.error "KeyError: Credit Card Name"
    else Except.error "KeyError: Bank"
  else Except.error "KeyError: network columns"

/-- The fixed header line printed before the values. -/
def headerLine : String :=
  "Matching Credit Cards with both \x27Visa\x27 and \x27Canara\x27:"

/-- How a cell prints: `str` of a NaN is "nan". -/
def showCell : Option String → String
  | none => "nan"
  | some s => s

/-- One printed value line: `print("", card, "(Visa Signature)")` joins its
arguments with single spaces. -/
def valueLine (v : Option String) : String := " " ++ showCell v ++ " (Visa Signature)"

/-- The print loop: the header line first, then one line per value, in order. -/
def report (values : List (Option String)) : List String :=
  values.foldl (fun acc v => acc ++ [valueLine v]) [headerLine]

/-- The whole pipeline after loading: compute the matching cards, then the
printed lines; a KeyError yields no output at all. -/
def runPipeline (t : Table) : Except String (List String) :=
  Except.map report (matching_cards t)

/-- Modelled from the spec (4.4): deduplication by appending each value to an
accumulator only if not already present, so the order of first appearance is
preserved. Used to compare the code's `unique` against the spec's algorithm. -/
def firstSeenDedup (l : List (Option String)) : List (Option String) :=
  l.foldl (fun acc x => if x ∈ acc then acc else acc ++ [x]) []

/-- Row 1 of the end-to-end example from the spec. -/
def exRow1 : Row :=
  [("Network 1", some "Visa Signature"), ("Bank", some "ICICI Bank"),
   ("Credit Card Name", some "Card A")]

/-- Row 2 of the end-to-end example from the spec. -/
def exRow2 : Row :=
  [("Network 1", some "Rupay"), ("Bank", some "ICICI Bank"),
   ("Credit Card Name", some "Card B")]

/-- Row 3 of the end-to-end example from the spec. -/
def exRow3 : Row :=
  [("Network 2", some "VISA SIGNATURE"), ("Bank", some "HDFC"),
   ("Credit Card Name", some "Card C")]

/-- Row 4 of the end-to-end example from the spec. -/
def exRow4 : Row :=
  [("Network 1", some "Visa Signature"), ("Bank", some "ICICI"),
   ("Credit Card Name", some "Card A")]

/-- The four-row example table from the spec. -/
def exTable : Table :=
  ⟨["Network 1", "Network 2", "Network 3", "Network 4", "Bank", "Credit Card Name"],
   [exRow1, exRow2, exRow3, exRow4]⟩

/-- Membership in the seen-tracking deduplication: an element appears exactly
when it appears in the input and was not already seen. -/
theorem mem_uniqueFirstAux (l : List (Option String)) :
    ∀ (seen : List (Option String)) (x : Option String),
      x ∈ uniqueFirstAux seen l ↔ x ∈ l ∧ x ∉ seen := by
  induction l with
  | nil => intro seen x; simp [uniqueFirstAux]
  | cons y ys ih =>
    intro seen x
    by_cases hy : y ∈ seen
    · rw [show uniqueFirstAux seen (y :: ys) = uniqueFirstAux seen ys by
        simp [uniqueFirstAux, hy]]
      rw [ih]
      constructor
      · rintro ⟨hx, hxs⟩; exact ⟨List.mem_cons_of_mem _ hx, hxs⟩
      · rintro ⟨hx, hxs⟩
        rcases List.mem_cons.mp hx with hxy | hx
        · exact absurd (by rw [hxy]; exact hy) hxs
        · exact ⟨hx, hxs⟩
    · rw [show uniqueFirstAux seen (y :: ys) = y :: uniqueFirstAux (y :: seen) ys by
        simp [uniqueFirstAux, hy]]
      constructor
      · intro hx
        rcases List.mem_cons.mp hx with hxy | hx
        · subst hxy; exact ⟨List.mem_cons_self _ _, hy⟩
        · obtain ⟨h1, h2⟩ := (ih _ _).mp hx
          refine ⟨List.mem_cons_of_mem _ h1, fun hc => h2 (List.mem_cons_of_mem _ hc)⟩
      · rintro ⟨hx, hxs⟩
        rcases List.mem_cons.mp hx with hxy | hx
        · exact hxy ▸ List.mem_cons_self _ _
        · by_cases hxy : x = y
          · exact hxy ▸ List.mem_cons_self _ _
          · exact List.mem_cons_of_mem _ ((ih _ _).mpr
              ⟨hx, fun hc => (List.mem_cons.mp hc).elim hxy hxs⟩)

/-- The seen-tracking deduplication never emits a value twice. -/
theorem nodup_uniqueFirstAux (l : List (Option String)) :
    ∀ seen : List (Option String), (uniqueFirstAux seen l).Nodup := by
  induction l with
  | nil => intro seen; simp [uniqueFirstAux]
  | cons y ys ih =>
    intro seen
    by_cases hy : y ∈ seen
    · rw [show uniqueFirstAux seen (y :: ys) = uniqueFirstAux seen ys by
        simp [uniqueFirstAux, hy]]
      exact ih seen
    · rw [show uniqueFirstAux seen (y :: ys) = y :: uniqueFirstAux (y :: seen) ys by
        simp [uniqueFirstAux, hy]]
      refine List.nodup_cons.mpr ⟨?_, ih _⟩
      intro hmem
      exact ((mem_uniqueFirstAux _ _ _).mp hmem).2 (List.mem_cons_self _ _)

/-- The spec's accumulator-style first-seen deduplication, generalized over a
starting accumulator whose members agree with the seen list. -/
theorem foldl_firstSeenAux (l : List (Option String)) :
    ∀ (acc seen : List (Option String)), (∀ y, y ∈ acc ↔ y ∈ seen) →
      l.foldl (fun a x => if x ∈ a then a else a ++ [x]) acc
        = acc ++ uniqueFirstAux seen l := by
  induction l with
  | nil => intro acc seen _; simp [uniqueFirstAux]
  | cons x xs ih =>
    intro acc seen h
    by_cases hx : x ∈ seen
    · have hxa : x ∈ acc := (h x).mpr hx
      rw [show uniqueFirstAux seen (x :: xs) = uniqueFirstAux seen xs by
        simp [uniqueFirstAux, hx]]
      simpa [hxa] using ih acc seen h
    · have hxa : x ∉ acc := fun hc => hx ((h x).mp hc)
      have h2 : ∀ y, y ∈ acc ++ [x] ↔ y ∈ x :: seen := by
        intro y
        simp [h y, or_comm]
      rw [show uniqueFirstAux seen (x :: xs) = x :: uniqueFirstAux (x :: seen) xs by
        simp [uniqueFirstAux, hx]]
      have := ih (acc ++ [x]) (x :: seen) h2
      simpa [hxa, List.append_assoc] using this

/-- The code's deduplication coincides with the spec's accumulator algorithm. -/
theorem uniqueFirst_eq_firstSeenDedup (l : List (Option String)) :
    uniqueFirst l = firstSeenDedup l := by
  have := foldl_firstSeenAux l [] [] (by simp)
  simpa [uniqueFirst, firstSeenDedup] using this.symm

/-- C1: the any-column predicate over the four network columns with needle
"visa signature" is true exactly when at least one of those columns holds a
present value whose case-folded text contains the case-folded needle; null
cells never match and never fail. -/
theorem visa_any_iff (r : Row) :
    visa_mask r = true ↔
      ∃ c ∈ network_cols, ∃ v, getCell r c = some v ∧
        strContainsSub (strLower v) (strLower "visa signature") = true := by
  have hneedle : strLower "visa signature" = "visa signature" := by decide
  rw [hneedle, visa_mask, List.any_eq_true]
  constructor
  · rintro ⟨c, hc, hm⟩
    cases hv : getCell r c with
    | none => rw [hv] at hm; exact absurd hm (by simp [cellMatch])
    | some v =>
      rw [hv] at hm
      exact ⟨c, hc, v, hv, hm⟩
  · rintro ⟨c, hc, v, hv, hsub⟩
    refine ⟨c, hc, ?_⟩
    rw [hv]
    exact hsub

/-- C4: on the spec's four-row example table, with needles "visa signature" and
"icici", the pipeline result is exactly the one-element sequence ["Card A"]. -/
theorem pipeline_example_result :
    matching_cards exTable = Except.ok [some "Card A"] := rfl

/-- In a duplicate-free list every member has count one. -/
theorem count_eq_one_of_nodup_mem {v : Option String} {l : List (Option String)}
    (hn : l.Nodup) (hm : v ∈ l) : l.count v = 1 := by
  induction l with
  | nil => cases hm
  | cons x xs ih =>
    obtain ⟨hx, hxs⟩ := List.nodup_cons.mp hn
    rcases List.mem_cons.mp hm with hv | hv
    · subst hv
      have h0 : xs.count v = 0 := List.count_eq_zero.mpr hx
      simp [List.count_cons, h0]
    · have hne : ¬(x == v) = true := by
        intro hb
        exact hx (eq_of_beq hb ▸ hv)
      simp [List.count_cons, hne, ih hxs hv]

/-- C2: the result sequence has no duplicates, equals the spec's first-seen
accumulator deduplication of the qualifying names (hence preserves the order
of first appearance), and each qualifying value occurs exactly once. -/
theorem matching_cards_nodup_first_seen (rows : List Row) :
    (matching_cardsOf rows).Nodup ∧
      matching_cardsOf rows = firstSeenDedup (qualifyingNames rows) ∧
      ∀ v, v ∈ qualifyingNames rows → (matching_cardsOf rows).count v = 1 := by
  refine ⟨nodup_uniqueFirstAux _ _, uniqueFirst_eq_firstSeenDedup _, ?_⟩
  intro v hv
  have hm : v ∈ matching_cardsOf rows := by
    rw [matching_cardsOf, uniqueFirst, mem_uniqueFirstAux]
    exact ⟨hv, by simp⟩
  exact count_eq_one_of_nodup_mem (nodup_uniqueFirstAux _ _) hm

/-- C2 witness: the invariants instantiated on the example table and the value
"Card A", which two qualifying rows share. -/
theorem matching_cards_nodup_first_seen_witness :
    (matching_cardsOf exTable.rows).Nodup ∧
      matching_cardsOf exTable.rows = firstSeenDedup (qualifyingNames exTable.rows) ∧
      (some "Card A" ∈ qualifyingNames exTable.rows ∧
        (matching_cardsOf exTable.rows).count (some "Card A") = 1) :=
  ⟨(matching_cards_nodup_first_seen exTable.rows).1,
   (matching_cards_nodup_first_seen exTable.rows).2.1,
   by decide,
   (matching_cards_nodup_first_seen exTable.rows).2.2 (some "Card A") (by decide)⟩

/-- C3: a value is in the result exactly when some row satisfies BOTH
predicates (conjunction) and carries that value in 'Credit Card Name'; rows
failing either predicate contribute nothing. -/
theorem matching_cards_mem_iff (rows : List Row) (v : Option String) :
    v ∈ matching_cardsOf rows ↔
      ∃ r, r ∈ rows ∧ visa_mask r = true ∧ canara_mask r = true ∧
        getCell r "Credit Card Name" = v := by
  rw [matching_cardsOf, uniqueFirst, mem_uniqueFirstAux]
  simp only [List.not_mem_nil, not_false_iff, and_true, qualifyingNames,
    List.mem_map, List.mem_filter, final_mask, Bool.and_eq_true]
  constructor
  · rintro ⟨r, ⟨hr, hvm, hcm⟩, hg⟩
    exact ⟨r, hr, hvm, hcm, hg⟩
  · rintro ⟨r, hr, hvm, hcm, hg⟩
    exact ⟨r, ⟨hr, hvm, hcm⟩, hg⟩

/-- Matching of a single cell only depends on its lower-cased content. -/
theorem cellMatch_congr (n : String) {a b : Option String}
    (h : Option.map strLower a = Option.map strLower b) :
    cellMatch n a = cellMatch n b := by
  cases a with
  | none =>
    cases b with
    | none => rfl
    | some w => exact absurd h (by simp)
  | some v =>
    cases b with
    | none => exact absurd h (by simp)
    | some w =>
      have hv : strLower v = strLower w := by simpa using h
      simp [cellMatch, hv]

/-- C5: the two masks and their conjunction are invariant under re-casing the
inspected cells: rows whose network and Bank cells agree up to letter-casing
match identically. -/
theorem masks_case_invariant (r r2 : Row)
    (h : ((network_cols ++ ["Bank"]).all
      (fun c => Option.map strLower (getCell r c)
        == Option.map strLower (getCell r2 c))) = true) :
    visa_mask r = visa_mask r2 ∧ canara_mask r = canara_mask r2 ∧
      final_mask r = final_mask r2 := by
  rw [List.all_eq_true] at h
  have hcell : ∀ c ∈ network_cols ++ ["Bank"],
      Option.map strLower (getCell r c) = Option.map strLower (getCell r2 c) :=
    fun c hc => eq_of_beq (h c hc)
  have h1 := cellMatch_congr "visa signature" (hcell "Network 1" (by simp [network_cols]))
  have h2 := cellMatch_congr "visa signature" (hcell "Network 2" (by simp [network_cols]))
  have h3 := cellMatch_congr "visa signature" (hcell "Network 3" (by simp [network_cols]))
  have h4 := cellMatch_congr "visa signature" (hcell "Network 4" (by simp [network_cols]))
  have hb := cellMatch_congr "icici" (hcell "Bank" (by simp [network_cols]))
  have hv : visa_mask r = visa_mask r2 := by
    simp [visa_mask, network_cols, h1, h2, h3, h4]
  have hc : canara_mask r = canara_mask r2 := by
    simpa [canara_mask] using hb
  exact ⟨hv, hc, by simp [final_mask, hv, hc]⟩

/-- First witness row for C5: needle texts in mixed case. -/
def wRowCase1 : Row :=
  [("Network 2", some "VISA Signature"), ("Bank", some "Icici Bank"),
   ("Credit Card Name", some "Card X")]

/-- Second witness row for C5: the same cells re-cased. -/
def wRowCase2 : Row :=
  [("Network 2", some "visa signature"), ("Bank", some "ICICI BANK"),
   ("Credit Card Name", some "Card X")]

/-- C5 witness: two concrete rows differing only in letter-casing, matched
identically by all three masks. -/
theorem masks_case_invariant_witness :
    (((network_cols ++ ["Bank"]).all
      (fun c => Option.map strLower (getCell wRowCase1 c)
        == Option.map strLower (getCell wRowCase2 c))) = true) ∧
    (visa_mask wRowCase1 = visa_mask wRowCase2 ∧
      canara_mask wRowCase1 = canara_mask wRowCase2 ∧
      final_mask wRowCase1 = final_mask wRowCase2) :=
  ⟨by decide, masks_case_invariant wRowCase1 wRowCase2 (by decide)⟩

/-- C6: a row whose four network cells are all null never satisfies the
any-match predicate, hence fails the conjunction, whatever its Bank cell. -/
theorem visa_mask_all_null_false (r : Row)
    (h : ∀ c ∈ network_cols, getCell r c = none) :
    visa_mask r = false ∧ final_mask r = false := by
  have hv : visa_mask r = false := by
    rw [visa_mask, List.any_eq_false]
    intro c hc
    rw [h c hc]
    simp [cellMatch]
  exact ⟨hv, by simp [final_mask, hv]⟩

/-- Witness row for C6: a Bank cell matching "icici", every network cell absent. -/
def wRowBankOnly : Row :=
  [("Bank", some "ICICI Bank"), ("Credit Card Name", some "Card Z")]

/-- C6 witness: the all-null-networks row is rejected despite its Bank cell. -/
theorem visa_mask_all_null_false_witness :
    (∀ c ∈ network_cols, getCell wRowBankOnly c = none) ∧
      (visa_mask wRowBankOnly = false ∧ final_mask wRowBankOnly = false) :=
  ⟨by decide, visa_mask_all_null_false wRowBankOnly (by decide)⟩

/-- C7: when 'Credit Card Name' is missing from the headers the pipeline
produces an error and no output line, and the outcome does not depend on the
rows at all: the check fails before any row is scanned. -/
theorem missing_project_column_fails (hs : List String) (rows rows2 : List Row)
    (h : "Credit Card Name" ∉ hs) :
    (∃ e, runPipeline ⟨hs, rows⟩ = Except.error e) ∧
      runPipeline ⟨hs, rows⟩ = runPipeline ⟨hs, rows2⟩ := by
  by_cases h1 : (network_cols.all (fun c => decide (c ∈ hs))) = true
  · by_cases h2 : ("Bank" ∈ hs)
    · refine ⟨⟨"KeyError: Credit Card Name", ?_⟩, ?_⟩ <;>
        simp [runPipeline, matching_cards, Except.map, h1, h2, h]
    · refine ⟨⟨"KeyError: Bank", ?_⟩, ?_⟩ <;>
        simp [runPipeline, matching_cards, Except.map, h1, h2]
  · refine ⟨⟨"KeyError: network columns", ?_⟩, ?_⟩ <;>
      simp [runPipeline, matching_cards, Except.map, h1]

/-- Headers of the C7 witness table: every column except the projection one. -/
def wHeadersNoName : List String :=
  ["Network 1", "Network 2", "Network 3", "Network 4", "Bank"]

/-- C7 witness: with the projection column removed from the headers the
pipeline errors, identically on an empty and a non-empty row list. -/
theorem missing_project_column_fails_witness :
    ("Credit Card Name" ∉ wHeadersNoName) ∧
      ((∃ e, runPipeline ⟨wHeadersNoName, []⟩ = Except.error e) ∧
        runPipeline ⟨wHeadersNoName, []⟩ = runPipeline ⟨wHeadersNoName, [exRow1]⟩) :=
  ⟨by decide, missing_project_column_fails wHeadersNoName [] [exRow1] (by decide)⟩

/-- The print loop over any starting accumulator appends one line per value. -/
theorem report_foldl_eq (vs : List (Option String)) :
    ∀ acc : List String,
      vs.foldl (fun acc v => acc ++ [valueLine v]) acc = acc ++ vs.map valueLine := by
  induction vs with
  | nil => intro acc; simp
  | cons v vs ih => intro acc; simp [List.foldl_cons, ih]

/-- C8: the reporter emits exactly the fixed header line followed by one line
per value in sequence order, each line being the value plus the fixed suffix;
on an empty sequence only the header line is emitted. -/
theorem report_shape (vs : List (Option String)) :
    report vs = headerLine :: vs.map valueLine ∧ report [] = [headerLine] := by
  refine ⟨?_, rfl⟩
  rw [report, report_foldl_eq]
  rfl

/-- C9: a row passing both predicates whose 'Credit Card Name' cell is null
contributes a null entry to the result, which survives deduplication and is
printed as a value line reading " nan (Visa Signature)". -/
theorem null_name_kept (rows : List Row) (r : Row)
    (hr : r ∈ rows) (hm : final_mask r = true)
    (hn : getCell r "Credit Card Name" = none) :
    none ∈ matching_cardsOf rows ∧
      valueLine none ∈ report (matching_cardsOf rows) ∧
      valueLine none = " nan (Visa Signature)" := by
  have hq : (none : Option String) ∈ qualifyingNames rows := by
    rw [qualifyingNames]
    exact List.mem_map.mpr ⟨r, List.mem_filter.mpr ⟨hr, hm⟩, hn⟩
  have h1 : (none : Option String) ∈ matching_cardsOf rows := by
    rw [matching_cardsOf, uniqueFirst, mem_uniqueFirstAux]
    exact ⟨hq, by simp⟩
  refine ⟨h1, ?_, rfl⟩
  rw [report, report_foldl_eq]
  exact List.mem_append_right _ (List.mem_map_of_mem _ h1)

/-- Witness row for C9: both predicates hold but the name cell is absent. -/
def wRowNoName : Row :=
  [("Network 3", some "Visa Signature Premium"), ("Bank", some "Icici")]

/-- C9 witness: the null name of a qualifying row reaches the result and the
printed lines on a concrete one-row table. -/
theorem null_name_kept_witness :
    (wRowNoName ∈ [wRowNoName] ∧ final_mask wRowNoName = true ∧
      getCell wRowNoName "Credit Card Name" = none) ∧
    (none ∈ matching_cardsOf [wRowNoName] ∧
      valueLine none ∈ report (matching_cardsOf [wRowNoName]) ∧
      valueLine none = " nan (Visa Signature)") :=
  ⟨⟨by decide, by decide, by decide⟩,
   null_name_kept [wRowNoName] wRowNoName (by decide) (by decide) (by decide)⟩

/-- C10: the pipeline is deterministic: equal loaded tables (same headers,
same rows) give equal results and equal printed output. -/
theorem pipeline_deterministic (t1 t2 : Table)
    (hh : t1.headers = t2.headers) (hr : t1.rows = t2.rows) :
    matching_cards t1 = matching_cards t2 ∧ runPipeline t1 = runPipeline t2 := by
  cases t1 with
  | mk h1 r1 =>
    cases t2 with
    | mk h2 r2 =>
      simp only at hh hr
      subst hh
      subst hr
      exact ⟨rfl, rfl⟩

/-- C10 witness: determinism instantiated at the example table. -/
theorem pipeline_deterministic_witness :
    (exTable.headers = exTable.headers ∧ exTable.rows = exTable.rows) ∧
      (matching_cards exTable = matching_cards exTable ∧
        runPipeline exTable = runPipeline exTable) :=
  ⟨⟨rfl, rfl⟩, pipeline_deterministic exTable exTable rfl rfl⟩
